import Mathlib

/-!
Shallow embedding of the `poeng` PNG decoder (src/png_parser.rs, src/decoder.rs).
Bytes are modelled as natural numbers; `u8` wraparound is made explicit with `% 256`.
Rust panics (from `panic!`, `assert_eq!` and out-of-bounds slice indexing) are modelled
as explicit `panicked`/`error` values carrying the panic message, kept separate from
the `PngError` values the Rust functions return in their `Result`s.
-/

deriving instance DecidableEq for Except

namespace Poeng

/-- Wrapping `u8` addition (`u8::wrapping_add` on byte values). -/
def wadd8 (x y : Nat) : Nat := (x + y) % 256

/-- Wrapping `u8` subtraction (`Wrapping<u8>` subtraction on byte values). -/
def wsub8 (x y : Nat) : Nat := (x + 256 - y % 256) % 256

/-- `paeth_diff` from src/decoder.rs: `((a as i32 - b as i32).abs() % 256) as u8`.
On byte values this is the absolute difference of the two bytes. -/
def paeth_diff (a b : Nat) : Nat := (max a b - min a b) % 256

/-- `paeth_predictor` from src/decoder.rs lines 101-118. The intermediate `p` is
computed with `Wrapping<u8>` arithmetic, i.e. modulo 256. -/
def paeth_predictor (a b c : Nat) : Nat :=
  let p := wsub8 (wadd8 a b) c
  let pa := paeth_diff p a
  let pb := paeth_diff p b
  let pc := paeth_diff p c
  if pa ≤ pb ∧ pa ≤ pc then a
  else if pb ≤ pc then b
  else c

/-- `ChunkType` from src/png_parser.rs. -/
inductive ChunkType
  | IHDR
  | PLTE
  | IDAT
  | IEND
  | Unknown (tag : List Nat)
deriving DecidableEq

/-- `BitDepth` from src/png_parser.rs. -/
inductive BitDepth
  | B1
  | B2
  | B4
  | B8
  | B16
deriving DecidableEq

/-- `BitDepth::to_bytes` from src/png_parser.rs lines 55-63; the catch-all arm
is a Rust `panic!`, modelled as an `error` carrying the panic message. -/
def BitDepth.to_bytes : BitDepth → Except String Nat
  | .B8 => .ok 1
  | .B16 => .ok 2
  | _ => .error ("unsupported bit depth")

/-- `ColourType` from src/png_parser.rs. -/
inductive ColourType
  | Greyscale
  | Truecolour
  | IndexedColour
  | GreyscaleWithAlpha
  | TruecolourWithAlpha
deriving DecidableEq

/-- `ColourType::channel_count` from src/png_parser.rs lines 74-84. -/
def ColourType.channel_count : ColourType → Nat
  | .Greyscale => 1
  | .Truecolour => 3
  | .IndexedColour => 1
  | .GreyscaleWithAlpha => 1
  | .TruecolourWithAlpha => 4

/-- `InterlaceMethod` from src/png_parser.rs. -/
inductive InterlaceMethod
  | None
  | Adam7
deriving DecidableEq

/-- `PngError` from src/png_parser.rs lines 10-35.  The `IoError` payload keeps
only the io error message. -/
inductive PngError
  | InvalidMagic
  | UnexpectedChunkType (expected was : ChunkType)
  | UnknownBitDepth (v : Nat)
  | UnknownColourType (v : Nat)
  | InvalidBitDepthColourCombination (bit_depth : BitDepth) (colour_type : ColourType)
  | UnknownCompressionMethod (v : Nat)
  | UnknownFilterMethod (v : Nat)
  | UnknownInterlaceMethod (v : Nat)
  | InflateError (msg : String)
  | IoError (msg : String)
deriving DecidableEq

/-- `PngChunk` from src/png_parser.rs lines 92-97. -/
structure PngChunk where
  length : Nat
  chunk_type : ChunkType
  data : List Nat
  crc : List Nat
deriving DecidableEq

/-- `PngHeader` from src/png_parser.rs lines 110-116. -/
structure PngHeader where
  width : Nat
  height : Nat
  bit_depth : BitDepth
  colour_type : ColourType
  interlace_method : InterlaceMethod
deriving DecidableEq

/-! ### The scanline de-filter engine (src/decoder.rs) -/

/-- Bounds-checked read `l[i]` of a Rust slice; out of range is a Rust panic. -/
def readAt (l : List Nat) (i : Nat) : Except String Nat :=
  if i < l.length then .ok (l.getD i 0) else .error ("index out of bounds")

/-- Bounds-checked write `l[i] = v` into a Rust slice; out of range is a Rust panic. -/
def writeAt (l : List Nat) (i : Nat) (v : Nat) : Except String (List Nat) :=
  if i < l.length then .ok (l.set i v) else .error ("index out of bounds")

/-- The common shape of the five filter functions (`FilterFunction` in src/decoder.rs):
arguments are the filtered byte `x`, the write position `offset` in the full output
buffer, the position `scanline_offset` inside the current scanline, the output buffer
`decoded`, and `scanline_length`. -/
abbrev FilterFunction := Nat → Nat → Nat → List Nat → Nat → Except String (List Nat)

/-- `filter_none` from src/decoder.rs lines 8-16. -/
def filter_none (x offset scanline_offset : Nat) (decoded : List Nat)
    (scanline_length : Nat) : Except String (List Nat) :=
  writeAt decoded offset x

/-- `filter_sub` from src/decoder.rs lines 18-32; the left neighbour is the byte one
position to the left (`decoded[offset - 1]`). -/
def filter_sub (x offset scanline_offset : Nat) (decoded : List Nat)
    (scanline_length : Nat) : Except String (List Nat) := do
  let a ← if scanline_offset > 0 then readAt decoded (offset - 1) else pure 0
  writeAt decoded offset (wadd8 x a)

/-- `filter_up` from src/decoder.rs lines 34-49. -/
def filter_up (x offset scanline_offset : Nat) (decoded : List Nat)
    (scanline_length : Nat) : Except String (List Nat) := do
  let b ← if offset > scanline_offset then readAt decoded (offset - scanline_length) else pure 0
  writeAt decoded offset (wadd8 x b)

/-- `filter_average` from src/decoder.rs lines 51-71: the predictor is
`a.wrapping_add(b) / 2`, i.e. the sum of the neighbours wraps at 256 before halving. -/
def filter_average (x offset scanline_offset : Nat) (decoded : List Nat)
    (scanline_length : Nat) : Except String (List Nat) := do
  let a ← if scanline_offset > 0 then readAt decoded (offset - 1) else pure 0
  let b ← if offset > scanline_offset then readAt decoded (offset - scanline_length) else pure 0
  writeAt decoded offset (wadd8 x (wadd8 a b / 2))

/-- `filter_paeth` from src/decoder.rs lines 73-99. -/
def filter_paeth (x offset scanline_offset : Nat) (decoded : List Nat)
    (scanline_length : Nat) : Except String (List Nat) := do
  let a ← if scanline_offset > 0 then readAt decoded (offset - 1) else pure 0
  let b ← if offset > scanline_offset then readAt decoded (offset - scanline_length) else pure 0
  let c ← if scanline_offset > 0 ∧ offset > scanline_offset then
            readAt decoded (offset - scanline_length - 1) else pure 0
  writeAt decoded offset (wadd8 x (paeth_predictor a b c))

/-- The filter dispatch `match filter_type` of `decode_data` (src/decoder.rs lines
143-165); tags other than 0-4 hit the `Invalid filter type` panic arm, modelled
as `none`. -/
def filterFor (t : Nat) : Option FilterFunction :=
  if t = 0 then some filter_none
  else if t = 1 then some filter_sub
  else if t = 2 then some filter_up
  else if t = 3 then some filter_average
  else if t = 4 then some filter_paeth
  else none

/-- The left-neighbour context `a` shared by the filter functions:
`decoded[offset - 1]` when `scanline_offset > 0`, else 0. -/
def ctxA (decoded : List Nat) (offset so : Nat) : Nat :=
  if so > 0 then decoded.getD (offset - 1) 0 else 0

/-- The above-neighbour context `b`: `decoded[offset - scanline_length]` when
`offset > scanline_offset`, else 0. -/
def ctxB (decoded : List Nat) (offset so sl : Nat) : Nat :=
  if offset > so then decoded.getD (offset - sl) 0 else 0

/-- The diagonal context `c`: `decoded[offset - scanline_length - 1]` when both
guards hold, else 0. -/
def ctxC (decoded : List Nat) (offset so sl : Nat) : Nat :=
  if so > 0 ∧ offset > so then decoded.getD (offset - sl - 1) 0 else 0

/-- The byte each filter function writes, as a function of the filter tag, the
filtered byte and the neighbour contexts. -/
def filterValue (ft x a b c : Nat) : Nat :=
  if ft = 0 then x
  else if ft = 1 then wadd8 x a
  else if ft = 2 then wadd8 x b
  else if ft = 3 then wadd8 x (wadd8 a b / 2)
  else wadd8 x (paeth_predictor a b c)

/-- `chunks_exact` on a byte slice: the list of consecutive whole chunks of size `n`;
a trailing fragment shorter than `n` is not yielded. -/
def chunksExact (n : Nat) (l : List Nat) : List (List Nat) :=
  if h : 0 < n ∧ n ≤ l.length then
    l.take n :: chunksExact n (l.drop n)
  else []
termination_by l.length
decreasing_by
  simp only [List.length_drop]
  omega

/-- The inner loop of `decode_data` (src/decoder.rs lines 167-176): apply the chosen
filter function to each byte of a scanline record in order, threading the output
buffer and the running `decoded_offset`. -/
def goBytes (f : FilterFunction) (scanline_length : Nat) :
    List Nat → Nat → List Nat → Nat → Except String (List Nat × Nat)
  | [], _, decoded, offset => .ok (decoded, offset)
  | x :: rest, scanline_offset, decoded, offset => do
    let d ← f x offset scanline_offset decoded scanline_length
    goBytes f scanline_length rest (scanline_offset + 1) d (offset + 1)

/-- The outer loop of `decode_data` (src/decoder.rs lines 140-177): for each whole
scanline record, dispatch on its leading filter-tag byte and de-filter the rest. -/
def goRecords (scanline_length : Nat) :
    List (List Nat) → List Nat → Nat → Except String (List Nat × Nat)
  | [], decoded, offset => .ok (decoded, offset)
  | record :: rest, decoded, offset =>
    match filterFor (record.headD 0) with
    | none => .error ("Invalid filter type")
    | some f => do
      let (d, off) ← goBytes f scanline_length record.tail 0 decoded offset
      goRecords scanline_length rest d off

/-- The `bytes_per_pixel` table inlined in `decode_data` (src/decoder.rs lines 126-132). -/
def bytes_per_pixel (ct : ColourType) : Nat :=
  match ct with
  | .Greyscale => 1
  | .Truecolour => 3
  | .IndexedColour => 1
  | .GreyscaleWithAlpha => 1
  | .TruecolourWithAlpha => 4

/-- `scanline_length` as computed in `decode_data` (src/decoder.rs line 134). -/
def scanlineLength (header : PngHeader) : Nat :=
  header.width * bytes_per_pixel header.colour_type

/-- Outcome of a decode call: a returned buffer, a returned `PngError`, or a Rust
panic with its message. -/
inductive DecodeResult
  | ok (data : List Nat)
  | err (e : PngError)
  | panicked (msg : String)
deriving DecidableEq

/-- The de-filter part of `decode_data` (src/decoder.rs lines 126-181): everything
after decompression, as a function of the header and the decompressed byte stream.
Ends with `assert_eq!(decoded_offset, decoded_data.len())`. -/
def reconstruct (header : PngHeader) (decompressed : List Nat) : DecodeResult :=
  match goRecords (scanlineLength header)
      (chunksExact (scanlineLength header + 1) decompressed)
      (List.replicate (scanlineLength header * header.height) 0) 0 with
  | .error msg => .panicked msg
  | .ok (decoded, offset) =>
    if offset = decoded.length then .ok decoded else .panicked ("assertion failed")

/-- `decode_data` from src/decoder.rs lines 120-182, parameterised by the external
inflate routine. The bit-depth `assert_eq!` runs first; an inflate failure becomes
`PngError::InflateError`. -/
def decode_data (inflate : List Nat → Except String (List Nat))
    (header : PngHeader) (data : PngChunk) : DecodeResult :=
  if header.bit_depth = BitDepth.B8 then
    match inflate data.data with
    | .error e => .err (PngError.InflateError e)
    | .ok d => reconstruct header d
  else .panicked ("bit depth must be 8")

/-! ### Chunk and header parsing (src/png_parser.rs) -/

/-- Big-endian `u32` from four bytes (`read_u32::<BigEndian>`). -/
def u32be (b0 b1 b2 b3 : Nat) : Nat := ((b0 * 256 + b1) * 256 + b2) * 256 + b3

/-- The colour-type byte lookup inlined in `PngHeader::try_from`
(src/png_parser.rs lines 147-154). -/
def colour_type_of : Nat → Option ColourType
  | 0 => some .Greyscale
  | 2 => some .Truecolour
  | 3 => some .IndexedColour
  | 4 => some .GreyscaleWithAlpha
  | 6 => some .TruecolourWithAlpha
  | _ => none

/-- The bit-depth byte lookup inlined in `PngHeader::try_from`
(src/png_parser.rs lines 156-163). -/
def bit_depth_of : Nat → Option BitDepth
  | 1 => some .B1
  | 2 => some .B2
  | 4 => some .B4
  | 8 => some .B8
  | 16 => some .B16
  | _ => none

/-- The interlace-method byte lookup inlined in `PngHeader::try_from`
(src/png_parser.rs lines 199-203). -/
def interlace_of : Nat → Option InterlaceMethod
  | 0 => some .None
  | 1 => some .Adam7
  | _ => none

/-- The `(colour_type, bit_depth)` admissibility match of `PngHeader::try_from`
(src/png_parser.rs lines 165-183). -/
def validCombination (colour_type : ColourType) (bit_depth : BitDepth) : Bool :=
  match colour_type, bit_depth with
  | .Greyscale, .B1 | .Greyscale, .B2 | .Greyscale, .B4
  | .Greyscale, .B8 | .Greyscale, .B16 => true
  | .Truecolour, .B8 | .Truecolour, .B16 => true
  | .IndexedColour, .B1 | .IndexedColour, .B2
  | .IndexedColour, .B4 | .IndexedColour, .B8 => true
  | .GreyscaleWithAlpha, .B8 | .GreyscaleWithAlpha, .B16 => true
  | .TruecolourWithAlpha, .B8 | .TruecolourWithAlpha, .B16 => true
  | _, _ => false

/-- `PngHeader::try_from` (src/png_parser.rs lines 128-213), reading the header
chunk payload through a cursor.  Read order and check order follow the source:
width, height, bit-depth byte, colour-type byte are read, then the colour type is
matched, then the bit depth, then the pair is validated, and only then are the
compression, filter and interlace bytes read and checked.  A short read is an
io error. -/
def PngHeader.try_from (value : PngChunk) : Except PngError PngHeader :=
  if value.chunk_type ≠ ChunkType.IHDR then
    .error (PngError.UnexpectedChunkType ChunkType.IHDR value.chunk_type)
  else
    match value.data with
    | w0 :: w1 :: w2 :: w3 :: h0 :: h1 :: h2 :: h3 :: bd :: ct :: rest =>
      let width := u32be w0 w1 w2 w3
      let height := u32be h0 h1 h2 h3
      match colour_type_of ct with
      | none => .error (PngError.UnknownColourType ct)
      | some colour_type =>
        match bit_depth_of bd with
        | none => .error (PngError.UnknownBitDepth bd)
        | some bit_depth =>
          if validCombination colour_type bit_depth then
            match rest with
            | cm :: fm :: im :: _ =>
              if cm ≠ 0 then .error (PngError.UnknownCompressionMethod cm)
              else if fm ≠ 0 then .error (PngError.UnknownFilterMethod fm)
              else
                match interlace_of im with
                | some interlace_method =>
                  .ok { width := width, height := height, bit_depth := bit_depth,
                        colour_type := colour_type, interlace_method := interlace_method }
                | none => .error (PngError.UnknownInterlaceMethod im)
            | cm :: fm :: [] =>
              if cm ≠ 0 then .error (PngError.UnknownCompressionMethod cm)
              else if fm ≠ 0 then .error (PngError.UnknownFilterMethod fm)
              else .error (PngError.IoError ("failed to fill whole buffer"))
            | cm :: [] =>
              if cm ≠ 0 then .error (PngError.UnknownCompressionMethod cm)
              else .error (PngError.IoError ("failed to fill whole buffer"))
            | [] => .error (PngError.IoError ("failed to fill whole buffer"))
          else .error (PngError.InvalidBitDepthColourCombination bit_depth colour_type)
    | _ => .error (PngError.IoError ("failed to fill whole buffer"))

/-- The 4-byte chunk-type tag lookup of `parse_png_chunk`
(src/png_parser.rs lines 275-281); tag bytes are ASCII. -/
def tag_of (t0 t1 t2 t3 : Nat) : ChunkType :=
  if t0 = 73 ∧ t1 = 72 ∧ t2 = 68 ∧ t3 = 82 then .IHDR
  else if t0 = 80 ∧ t1 = 76 ∧ t2 = 84 ∧ t3 = 69 then .PLTE
  else if t0 = 73 ∧ t1 = 68 ∧ t2 = 65 ∧ t3 = 84 then .IDAT
  else if t0 = 73 ∧ t1 = 69 ∧ t2 = 78 ∧ t3 = 68 then .IEND
  else .Unknown [t0, t1, t2, t3]

/-- `parse_png_chunk` (src/png_parser.rs lines 270-295): 4-byte big-endian length,
4-byte type, up to `length` payload bytes (`take(length).read_to_end` does not fail
on a short payload), then exactly 4 CRC bytes.  Returns the chunk and the unread
rest of the stream. -/
def parse_png_chunk : List Nat → Except PngError (PngChunk × List Nat)
  | b0 :: b1 :: b2 :: b3 :: t0 :: t1 :: t2 :: t3 :: rest =>
    let length := u32be b0 b1 b2 b3
    let after := rest.drop length
    if 4 ≤ after.length then
      .ok ({ length := length, chunk_type := tag_of t0 t1 t2 t3,
             data := rest.take length, crc := after.take 4 }, after.drop 4)
    else .error (PngError.IoError ("failed to fill whole buffer"))
  | _ => .error (PngError.IoError ("failed to fill whole buffer"))

theorem parse_png_chunk_shrinks {bytes rest : List Nat} {c : PngChunk}
    (h : parse_png_chunk bytes = .ok (c, rest)) : rest.length < bytes.length := by
  match bytes with
  | [] => simp [parse_png_chunk] at h
  | [b0] => simp [parse_png_chunk] at h
  | [b0, b1] => simp [parse_png_chunk] at h
  | [b0, b1, b2] => simp [parse_png_chunk] at h
  | [b0, b1, b2, b3] => simp [parse_png_chunk] at h
  | [b0, b1, b2, b3, t0] => simp [parse_png_chunk] at h
  | [b0, b1, b2, b3, t0, t1] => simp [parse_png_chunk] at h
  | [b0, b1, b2, b3, t0, t1, t2] => simp [parse_png_chunk] at h
  | b0 :: b1 :: b2 :: b3 :: t0 :: t1 :: t2 :: t3 :: tl =>
    simp only [parse_png_chunk] at h
    split at h
    · next hlen =>
      have hdrop : (tl.drop (u32be b0 b1 b2 b3)).length ≤ tl.length := by
        simp [List.length_drop]
      injection h with h1
      injection h1 with _ h2
      subst h2
      simp only [List.length_drop, List.length_cons]
      omega
    · exact absurd h (by simp)

/-- The chunk-reading loop of `PngFile::from_reader` (src/png_parser.rs lines
237-247): parse chunks one after another, stopping after (and including) the
first `IEND` chunk. -/
def parseChunks (bytes : List Nat) : Except PngError (List PngChunk) :=
  match h : parse_png_chunk bytes with
  | .error e => .error e
  | .ok (c, rest) =>
    if c.chunk_type = ChunkType.IEND then .ok [c]
    else
      match parseChunks rest with
      | .error e => .error e
      | .ok cs => .ok (c :: cs)
termination_by bytes.length
decreasing_by exact parse_png_chunk_shrinks h

/-- The fixed 8-byte PNG signature (`MAGIC` in src/png_parser.rs line 8). -/
def MAGIC : List Nat := [137, 80, 78, 71, 13, 10, 26, 10]

/-- `PngFile` from src/png_parser.rs lines 215-218. -/
structure PngFile where
  chunks : List PngChunk
deriving DecidableEq

/-- `PngFile::get_header_chunk` (src/png_parser.rs lines 221-223): `&self.chunks[0]`;
indexing an empty vector is a Rust panic, modelled as `none`. -/
def PngFile.get_header_chunk (f : PngFile) : Option PngChunk := f.chunks.head?

/-- `PngFile::try_parse_header` (src/png_parser.rs lines 225-227); `none` is the
index panic of `get_header_chunk` on an empty chunk list. -/
def PngFile.try_parse_header (f : PngFile) : Option (Except PngError PngHeader) :=
  f.get_header_chunk.map PngHeader.try_from

/-- `PngFile::from_reader` (src/png_parser.rs lines 229-250): read and check the
8-byte signature, then read chunks until `IEND`. -/
def PngFile.from_reader (bytes : List Nat) : Except PngError PngFile :=
  if 8 ≤ bytes.length then
    if bytes.take 8 = MAGIC then
      match parseChunks (bytes.drop 8) with
      | .error e => .error e
      | .ok chunks => .ok { chunks := chunks }
    else .error PngError.InvalidMagic
  else .error (PngError.IoError ("failed to fill whole buffer"))

/-- `PngFile::image_data_chunks` (src/png_parser.rs lines 252-256): the `IDAT`
chunks in file order. -/
def PngFile.image_data_chunks (f : PngFile) : List PngChunk :=
  f.chunks.filter (fun c => c.chunk_type == ChunkType.IDAT)

/-- Modelled from the spec: the variant of `decoder::decode_data` that its caller
`PngFile::decode_data_to` (src/png_parser.rs line 266) expects — it receives the
image-data chunks and hands the external inflate routine the concatenation of
their payload bytes in order ("the core calls an external zlib-style inflate
routine with the concatenated payload bytes of all image-data chunks (in chunk
order)"); the `decode_data` in src/decoder.rs takes a single chunk and does not
match this call.  The bit-depth assertion and the de-filter step are taken from
src/decoder.rs unchanged. -/
def decode_data_chunks (inflate : List Nat → Except String (List Nat))
    (header : PngHeader) (chunks : List PngChunk) : DecodeResult :=
  if header.bit_depth = BitDepth.B8 then
    let compressed := chunks.foldl (fun acc c => acc ++ c.data) []
    match inflate compressed with
    | .error e => .err (PngError.InflateError e)
    | .ok d => reconstruct header d
  else .panicked ("bit depth must be 8")

/-- `PngFile::decode_data_to` (src/png_parser.rs lines 264-267): parse the header
from the first chunk, then decode the image-data chunks. -/
def PngFile.decode_data_to (inflate : List Nat → Except String (List Nat))
    (f : PngFile) : DecodeResult :=
  match f.get_header_chunk with
  | none => .panicked ("index out of bounds")
  | some c0 =>
    match PngHeader.try_from c0 with
    | .error e => .err e
    | .ok header => decode_data_chunks inflate header f.image_data_chunks

/-- The PNG wire code of each colour type (the byte values accepted by
`PngHeader::try_from`). -/
def ColourType.code : ColourType → Nat
  | .Greyscale => 0
  | .Truecolour => 2
  | .IndexedColour => 3
  | .GreyscaleWithAlpha => 4
  | .TruecolourWithAlpha => 6

/-- The PNG wire code of each bit depth (the byte values accepted by
`PngHeader::try_from`). -/
def BitDepth.code : BitDepth → Nat
  | .B1 => 1
  | .B2 => 2
  | .B4 => 4
  | .B8 => 8
  | .B16 => 16

/-- A 13-byte IHDR payload laid out as the header interpreter reads it. -/
def headerPayload (w0 w1 w2 w3 h0 h1 h2 h3 d c cm fm im : Nat) : List Nat :=
  [w0, w1, w2, w3, h0, h1, h2, h3, d, c, cm, fm, im]

/-- An IHDR chunk with the given payload. -/
def ihdrChunk (payload : List Nat) : PngChunk :=
  { length := payload.length, chunk_type := ChunkType.IHDR, data := payload, crc := [] }

/-- Build a header record. -/
def mkHeader (w h : Nat) (bd : BitDepth) (ct : ColourType) (im : InterlaceMethod) : PngHeader :=
  { width := w, height := h, bit_depth := bd, colour_type := ct, interlace_method := im }

/-- An image-data chunk with the given payload. -/
def idatChunk (d : List Nat) : PngChunk :=
  { length := d.length, chunk_type := ChunkType.IDAT, data := d, crc := [] }

/-- A terminator chunk. -/
def iendChunk : PngChunk :=
  { length := 0, chunk_type := ChunkType.IEND, data := [], crc := [] }

/-- A minimal four-chunk file (1×1 8-bit greyscale header, two image-data
chunks, terminator) used as a concrete decode-pipeline input. -/
def c8File : PngFile :=
  { chunks := [ihdrChunk (headerPayload 0 0 0 1 0 0 0 1 8 0 0 0 0),
               idatChunk [0], idatChunk [7], iendChunk] }

/-- The file parsed from the shortest well-formed stream: the 8-byte signature
followed by one bare terminator chunk with CRC bytes `[1, 2, 3, 4]`. -/
def minimalFile : PngFile :=
  { chunks := [{ length := 0, chunk_type := ChunkType.IEND, data := [], crc := [1, 2, 3, 4] }] }

/-- An 8-bit greyscale header of the given width and height (the simplest
geometry: one byte per pixel), used to state engine properties. -/
def greyHeader (w h : Nat) : PngHeader :=
  { width := w, height := h, bit_depth := BitDepth.B8,
    colour_type := ColourType.Greyscale, interlace_method := InterlaceMethod.None }

/-! ### Definitions taken from the spec's words, for comparison with the code -/

/-- The Paeth predictor as the spec words it: pick whichever of `a, b, c`
minimizes the absolute difference to `p = a + b - c` computed in signed
arithmetic wider than 8 bits, tie-break order `a`, `b`, `c`. -/
def paeth_predictor_spec (a b c : Nat) : Nat :=
  let p : Int := (a : Int) + b - c
  let pa := (p - a).natAbs
  let pb := (p - b).natAbs
  let pc := (p - c).natAbs
  if pa ≤ pb ∧ pa ≤ pc then a
  else if pb ≤ pc then b
  else c

/-- The five predictors as the spec words them, as functions of the neighbour
contexts: `None→0`, `Sub→a`, `Up→b`, `Average→floor((a+b)/2)` in wide arithmetic,
`Paeth→` the wide-arithmetic Paeth predictor. -/
def spec_predict (ft : Nat) (a b c : Nat) : Nat :=
  match ft with
  | 0 => 0
  | 1 => a
  | 2 => b
  | 3 => (a + b) / 2
  | _ => paeth_predictor_spec a b c

/-- The legal `(colour_type, bit_depth)` table as the spec lists it:
Greyscale×{1,2,4,8,16}; Truecolour×{8,16}; Indexed×{1,2,4,8};
GreyscaleAlpha×{8,16}; TruecolourAlpha×{8,16}. -/
def legal_pairs_spec (ct : ColourType) (bd : BitDepth) : Bool :=
  match ct with
  | .Greyscale => true
  | .Truecolour => bd = .B8 ∨ bd = .B16
  | .IndexedColour => bd = .B1 ∨ bd = .B2 ∨ bd = .B4 ∨ bd = .B8
  | .GreyscaleWithAlpha => bd = .B8 ∨ bd = .B16
  | .TruecolourWithAlpha => bd = .B8 ∨ bd = .B16

/-- Modelled from the spec: single-scanline filter application on the encoding
side (the encoder is out of the repository's scope).  Per the spec's round-trip
property and glossary, filtering subtracts the predictor of the already-encoded
neighbours modulo 256; on a single (first) scanline the above and diagonal
neighbours `b` and `c` are 0 and the left neighbour is the previous raw byte. -/
def encode_bytes (ft : Nat) : Nat → List Nat → List Nat
  | _, [] => []
  | prev, r :: rs => (r + 256 - spec_predict ft prev 0 0 % 256) % 256 :: encode_bytes ft r rs

/-- Modelled from the spec: filter a whole single scanline for encoding; the
first byte has no left neighbour. -/
def encode_scanline (ft : Nat) (raw : List Nat) : List Nat :=
  encode_bytes ft 0 raw

/-! ### Engine lemmas -/

theorem readAt_lt {l : List Nat} {i : Nat} (h : i < l.length) :
    readAt l i = .ok (l.getD i 0) := by
  simp [readAt, h]

theorem writeAt_lt {l : List Nat} {i : Nat} (v : Nat) (h : i < l.length) :
    writeAt l i v = .ok (l.set i v) := by
  simp [writeAt, h]

theorem filterFor_eq_none {t : Nat} : filterFor t = none ↔ 4 < t := by
  unfold filterFor
  split_ifs <;> simp_all <;> omega

theorem filter_apply_eq {ft : Nat} {f : FilterFunction} (hf : filterFor ft = some f)
    (x offset so : Nat) (decoded : List Nat) (sl : Nat) (h : offset < decoded.length) :
    f x offset so decoded sl =
      .ok (decoded.set offset (filterValue ft x (ctxA decoded offset so)
        (ctxB decoded offset so sl) (ctxC decoded offset so sl))) := by
  have h1 : offset - 1 < decoded.length := Nat.lt_of_le_of_lt (Nat.sub_le _ _) h
  have h2 : offset - sl < decoded.length := Nat.lt_of_le_of_lt (Nat.sub_le _ _) h
  have h3 : offset - sl - 1 < decoded.length := Nat.lt_of_le_of_lt (Nat.sub_le _ _) h2
  unfold filterFor at hf
  split_ifs at hf with e0 e1 e2 e3 e4
  · injection hf with hf; subst hf; subst e0
    simp [filter_none, writeAt_lt _ h, filterValue]
  · injection hf with hf; subst hf; subst e1
    by_cases hso : 0 < so <;>
      simp [filter_sub, hso, readAt_lt, writeAt_lt, h, h1, filterValue, ctxA,
        pure, Except.pure, Bind.bind, Except.bind]
  · injection hf with hf; subst hf; subst e2
    by_cases hob : offset > so <;>
      simp [filter_up, hob, readAt_lt, writeAt_lt, h, h2, filterValue, ctxB,
        pure, Except.pure, Bind.bind, Except.bind]
  · injection hf with hf; subst hf; subst e3
    by_cases hso : 0 < so <;> by_cases hob : offset > so <;>
      simp [filter_average, hso, hob, readAt_lt, writeAt_lt, h, h1, h2, filterValue,
        ctxA, ctxB, pure, Except.pure, Bind.bind, Except.bind]
  · injection hf with hf; subst hf; subst e4
    by_cases hso : 0 < so <;> by_cases hob : offset > so <;>
      simp [filter_paeth, hso, hob, readAt_lt, writeAt_lt, h, h1, h2, h3, filterValue,
        ctxA, ctxB, ctxC, pure, Except.pure, Bind.bind, Except.bind]

theorem goBytes_ok {ft : Nat} {f : FilterFunction} (hf : filterFor ft = some f) (sl : Nat) :
    ∀ (bytes : List Nat) (so : Nat) (decoded : List Nat) (offset : Nat),
      offset + bytes.length ≤ decoded.length →
      ∃ d', goBytes f sl bytes so decoded offset = .ok (d', offset + bytes.length) ∧
        d'.length = decoded.length := by
  intro bytes
  induction bytes with
  | nil =>
    intro so decoded offset h
    exact ⟨decoded, by simp [goBytes], rfl⟩
  | cons x rest ih =>
    intro so decoded offset h
    have hofs : offset < decoded.length := by
      simp only [List.length_cons] at h; omega
    have happ := filter_apply_eq hf x offset so decoded sl hofs
    obtain ⟨d', hd', hlen⟩ := ih (so + 1)
      (decoded.set offset (filterValue ft x (ctxA decoded offset so)
        (ctxB decoded offset so sl) (ctxC decoded offset so sl)))
      (offset + 1)
      (by simp only [List.length_set, List.length_cons] at *; omega)
    refine ⟨d', ?_, by simp [hlen, List.length_set]⟩
    have harith : offset + (x :: rest).length = offset + 1 + rest.length := by
      simp; omega
    rw [harith]
    simp only [goBytes, happ, Bind.bind, Except.bind]
    exact hd'

theorem chunksExact_nil (n : Nat) : chunksExact n [] = [] := by
  rw [chunksExact]
  simp only [List.length_nil]
  rw [dif_neg]
  rintro ⟨a, b⟩
  omega

theorem chunksExact_cons {n : Nat} {l : List Nat} (h0 : 0 < n) (hle : n ≤ l.length) :
    chunksExact n l = l.take n :: chunksExact n (l.drop n) := by
  rw [chunksExact, dif_pos ⟨h0, hle⟩]

theorem chunksExact_short {n : Nat} {l : List Nat} (h : l.length < n) :
    chunksExact n l = [] := by
  rw [chunksExact]
  rw [dif_neg (by rintro ⟨a, b⟩; omega)]

theorem chunksExact_mem_length {n : Nat} {r : List Nat} :
    ∀ {l : List Nat}, r ∈ chunksExact n l → r.length = n := by
  intro l
  induction l using chunksExact.induct n with
  | case1 x hcond ih =>
    intro h
    rw [chunksExact_cons hcond.1 hcond.2] at h
    rcases List.mem_cons.mp h with rfl | hmem
    · simp only [List.length_take]
      omega
    · exact ih hmem
  | case2 x hcond =>
    intro h
    rw [chunksExact, dif_neg hcond] at h
    simp at h

theorem chunksExact_length_exact {n : Nat} (h0 : 0 < n) :
    ∀ (k : Nat) (l : List Nat), l.length = k * n → (chunksExact n l).length = k := by
  intro k
  induction k with
  | zero =>
    intro l hl
    rw [Nat.zero_mul] at hl
    rw [chunksExact_short (by omega)]
    rfl
  | succ k ih =>
    intro l hl
    have hle : n ≤ l.length := by rw [hl, Nat.succ_mul]; omega
    rw [chunksExact_cons h0 hle]
    simp only [List.length_cons]
    rw [ih (l.drop n) (by simp [List.length_drop, hl, Nat.succ_mul])]

theorem chunksExact_take {n : Nat} (h0 : 0 < n) :
    ∀ (k : Nat) (l : List Nat), k * n ≤ l.length → l.length < (k + 1) * n →
      chunksExact n l = chunksExact n (l.take (k * n)) := by
  intro k
  induction k with
  | zero =>
    intro l h1 h2
    rw [chunksExact_short (by omega)]
    simp only [Nat.zero_mul, List.take_zero]
    rw [chunksExact_nil]
  | succ k ih =>
    intro l h1 h2
    have hle : n ≤ l.length := by
      have : n ≤ (k + 1) * n := by rw [Nat.succ_mul]; omega
      omega
    have hle2 : n ≤ (l.take ((k + 1) * n)).length := by
      simp only [List.length_take]
      rw [Nat.succ_mul]
      omega
    rw [chunksExact_cons h0 hle, chunksExact_cons h0 hle2]
    congr 1
    · rw [List.take_take]
      congr 1
      rw [Nat.succ_mul]
      omega
    · rw [List.drop_take]
      have hd1 : (k + 1) * n - n = k * n := by rw [Nat.succ_mul]; omega
      rw [hd1]
      exact ih (l.drop n) (by simp [List.length_drop]; rw [Nat.succ_mul] at h1; omega)
        (by simp [List.length_drop]; rw [Nat.succ_mul] at h2 ⊢; omega)

theorem chunksExact_full {n : Nat} {l : List Nat} (h0 : 0 < n) (h : l.length = n) :
    chunksExact n l = [l] := by
  rw [chunksExact_cons h0 (by omega)]
  rw [List.drop_eq_nil_of_le (by omega), chunksExact_nil]
  rw [← h, List.take_length]

theorem goRecords_invalid (sl : Nat) :
    ∀ (recs : List (List Nat)) (decoded : List Nat) (offset : Nat),
      (∀ r ∈ recs, r.length = sl + 1) →
      offset + sl * recs.length ≤ decoded.length →
      (∃ r ∈ recs, filterFor (r.head?.getD 0) = none) →
      goRecords sl recs decoded offset = .error ("Invalid filter type") := by
  intro recs
  induction recs with
  | nil =>
    intro decoded offset _ _ hex
    simp at hex
  | cons r rest ih =>
    intro decoded offset hlen hbound hex
    rw [List.length_cons, Nat.mul_succ] at hbound
    cases hr : filterFor (r.head?.getD 0) with
    | none => simp [goRecords, hr]
    | some f =>
      have hrlen : r.length = sl + 1 := hlen r (List.mem_cons_self r rest)
      have htail : r.tail.length = sl := by
        rw [List.length_tail, hrlen]
        omega
      obtain ⟨d', hd', hdlen⟩ := goBytes_ok hr sl r.tail 0 decoded offset (by rw [htail]; omega)
      have hex' : ∃ r' ∈ rest, filterFor (r'.head?.getD 0) = none := by
        rcases hex with ⟨r', hr', hnone⟩
        rcases List.mem_cons.mp hr' with rfl | hmem
        · rw [hr] at hnone
          exact absurd hnone (by simp)
        · exact ⟨r', hmem, hnone⟩
      simp only [goRecords, List.headD_eq_head?_getD, hr, hd', Bind.bind, Except.bind]
      exact ih d' (offset + r.tail.length)
        (fun r' h' => hlen r' (List.mem_cons_of_mem _ h'))
        (by rw [htail, hdlen]; omega) hex'

theorem reconstruct_ne_err (header : PngHeader) (d : List Nat) (e : PngError) :
    reconstruct header d ≠ .err e := by
  cases hg : goRecords (scanlineLength header) (chunksExact (scanlineLength header + 1) d)
      (List.replicate (scanlineLength header * header.height) 0) 0 with
  | error msg => simp [reconstruct, hg]
  | ok p =>
    obtain ⟨dec, off⟩ := p
    by_cases he : off = dec.length <;> simp [reconstruct, hg, he]

theorem reconstruct_invalid_tag (header : PngHeader) (d : List Nat)
    (hlen : d.length = header.height * (scanlineLength header + 1))
    (hex : ∃ r ∈ chunksExact (scanlineLength header + 1) d, filterFor (r.head?.getD 0) = none) :
    reconstruct header d = .panicked ("Invalid filter type") := by
  have h0 : 0 < scanlineLength header + 1 := Nat.succ_pos _
  have hcount : (chunksExact (scanlineLength header + 1) d).length = header.height :=
    chunksExact_length_exact h0 header.height d hlen
  have hrec := goRecords_invalid (scanlineLength header)
    (chunksExact (scanlineLength header + 1) d)
    (List.replicate (scanlineLength header * header.height) 0) 0
    (fun r h => chunksExact_mem_length h)
    (by rw [List.length_replicate, hcount]; omega)
    hex
  simp [reconstruct, hrec]

theorem reconstruct_drops_fragment (header : PngHeader) (d : List Nat)
    (h1 : header.height * (scanlineLength header + 1) ≤ d.length)
    (h2 : d.length < (header.height + 1) * (scanlineLength header + 1)) :
    reconstruct header d =
      reconstruct header (d.take (header.height * (scanlineLength header + 1))) := by
  have heq := chunksExact_take (Nat.succ_pos (scanlineLength header)) header.height d h1 h2
  simp only [reconstruct]
  rw [heq]

theorem encode_bytes_length (ft : Nat) :
    ∀ (rs : List Nat) (prev : Nat), (encode_bytes ft prev rs).length = rs.length := by
  intro rs
  induction rs with
  | nil => intro prev; rfl
  | cons r rest ih =>
    intro prev
    simp [encode_bytes, ih]

theorem decode_inverts_encode_step (ft a r : Nat) (hft : ft ≤ 4) (ha : a < 256) (hr : r < 256) :
    filterValue ft ((r + 256 - spec_predict ft a 0 0 % 256) % 256) a 0 0 = r := by
  interval_cases ft
  · simp [filterValue, spec_predict]
    omega
  · simp [filterValue, spec_predict, wadd8]
    omega
  · simp [filterValue, spec_predict, wadd8]
    omega
  · simp [filterValue, spec_predict, wadd8]
    omega
  · have hcode : paeth_predictor a 0 0 = a := by
      simp only [paeth_predictor, wadd8, wsub8, paeth_diff]
      split_ifs <;> omega
    have hspec : paeth_predictor_spec a 0 0 = a := by
      simp [paeth_predictor_spec]
    simp [filterValue, hcode, spec_predict, hspec, wadd8]
    omega

theorem goBytes_first_row {ft : Nat} {f : FilterFunction} (hf : filterFor ft = some f)
    (hft : ft ≤ 4) (sl : Nat) :
    ∀ (rs done : List Nat) (prev : Nat),
      (∀ y ∈ rs, y < 256) → prev < 256 →
      ((done = [] ∧ prev = 0) ∨ ∃ d0, done = d0 ++ [prev]) →
      goBytes f sl (encode_bytes ft prev rs) done.length
        (done ++ List.replicate rs.length 0) done.length =
      .ok (done ++ rs, done.length + rs.length) := by
  intro rs
  induction rs with
  | nil =>
    intro done prev _ _ _
    simp [encode_bytes, goBytes]
  | cons r rest ih =>
    intro done prev hrs hprev hshape
    have hr256 : r < 256 := hrs r (List.mem_cons_self _ _)
    have hofs : done.length < (done ++ List.replicate (r :: rest).length 0).length := by
      simp
    have happ := filter_apply_eq hf ((r + 256 - spec_predict ft prev 0 0 % 256) % 256)
      done.length done.length (done ++ List.replicate (r :: rest).length 0) sl hofs
    have hctxA : ctxA (done ++ List.replicate (r :: rest).length 0) done.length done.length
        = prev := by
      rcases hshape with ⟨hd, hp⟩ | ⟨d0, hd⟩
      · subst hd; subst hp; simp [ctxA]
      · subst hd
        have hpos : 0 < (d0 ++ [prev]).length := by simp
        simp only [ctxA, gt_iff_lt, if_pos hpos]
        rw [List.getD_append _ _ _ _ (by simp)]
        rw [List.getD_append_right _ _ _ _ (by simp)]
        simp
    have hctxB : ctxB (done ++ List.replicate (r :: rest).length 0) done.length done.length sl
        = 0 := by
      simp [ctxB]
    have hctxC : ctxC (done ++ List.replicate (r :: rest).length 0) done.length done.length sl
        = 0 := by
      simp [ctxC]
    have hval := decode_inverts_encode_step ft prev r hft hprev hr256
    have hset : (done ++ List.replicate (r :: rest).length 0).set done.length r
        = (done ++ [r]) ++ List.replicate rest.length 0 := by
      rw [List.length_cons, List.replicate_succ]
      rw [List.set_append_right _ _ (le_refl _)]
      simp
    have hrec := ih (done ++ [r]) r (fun y hy => hrs y (List.mem_cons_of_mem _ hy)) hr256
      (Or.inr ⟨done, rfl⟩)
    simp only [encode_bytes, goBytes, happ, hctxA, hctxB, hctxC, hval, hset,
      Bind.bind, Except.bind]
    simp only [List.length_append, List.length_cons, List.length_nil, Nat.add_zero] at hrec ⊢
    rw [List.append_assoc] at hrec
    simp only [List.cons_append, List.nil_append] at hrec
    simpa [Nat.add_assoc, Nat.add_comm, Nat.add_left_comm] using hrec

theorem filterFor_isSome_of_le {ft : Nat} (h : ft ≤ 4) : ∃ f, filterFor ft = some f := by
  interval_cases ft <;> exact ⟨_, rfl⟩

theorem filterFor_le_of_isSome {ft : Nat} {f : FilterFunction} (h : filterFor ft = some f) :
    ft ≤ 4 := by
  by_contra hgt
  rw [filterFor_eq_none.mpr (by omega)] at h
  exact absurd h (by simp)

theorem parseChunks_spec :
    ∀ (bytes : List Nat) (cs : List PngChunk), parseChunks bytes = .ok cs →
      cs ≠ [] ∧ (∃ l, cs.getLast? = some l ∧ l.chunk_type = ChunkType.IEND) ∧
      List.countP (fun c => c.chunk_type == ChunkType.IEND) cs = 1 := by
  intro bytes
  induction bytes using parseChunks.induct with
  | case1 x e hx =>
    intro cs hcs
    rw [parseChunks] at hcs
    rw [hx] at hcs
    exact absurd hcs (by simp)
  | case2 x c rest hx hc =>
    intro cs hcs
    rw [parseChunks] at hcs
    rw [hx] at hcs
    simp only [hc, if_true] at hcs
    injection hcs with hcs
    subst hcs
    refine ⟨by simp, ⟨c, by simp, hc⟩, ?_⟩
    simp [List.countP_cons, hc]
  | case3 x c rest hx hc e herr ih =>
    intro cs hcs
    rw [parseChunks] at hcs
    rw [hx] at hcs
    simp only [hc, if_false] at hcs
    rw [herr] at hcs
    exact absurd hcs (by simp)
  | case4 x c rest hx hc cs' hok ih =>
    intro cs hcs
    rw [parseChunks] at hcs
    rw [hx] at hcs
    simp only [hc, if_false] at hcs
    rw [hok] at hcs
    injection hcs with hcs
    subst hcs
    obtain ⟨hne, ⟨l, hlast, hltype⟩, hcount⟩ := ih cs' hok
    refine ⟨by simp, ⟨l, ?_, hltype⟩, ?_⟩
    · cases cs' with
      | nil => exact absurd rfl hne
      | cons y ys => rw [List.getLast?_cons_cons]; exact hlast
    · simp [List.countP_cons, hc, hcount]

theorem foldl_append_data (l : List PngChunk) :
    ∀ init : List Nat,
      l.foldl (fun acc c => acc ++ c.data) init = init ++ (l.map PngChunk.data).flatten := by
  induction l with
  | nil => intro init; simp
  | cons c rest ih =>
    intro init
    simp [List.foldl_cons, ih, List.append_assoc]

/-! ### Claim theorems -/

/-- C1 counterexample: the decompressed stream `[0, 5, 99]` for a 1×1 greyscale
header has length 3, not `height * (1 + scanline_length) = 2`, yet the de-filter
step returns `Ok [5]` — a buffer built from the single whole record with the
trailing byte silently dropped — instead of a malformed-stream error value. -/
theorem C1_counterexample :
    reconstruct (greyHeader 1 1) [0, 5, 99] = DecodeResult.ok [5] ∧
    [0, 5, 99].length ≠ (greyHeader 1 1).height * (scanlineLength (greyHeader 1 1) + 1) := by
  refine ⟨?_, by decide⟩
  simp [reconstruct, greyHeader, scanlineLength, bytes_per_pixel, chunksExact, goRecords,
    goBytes, filterFor, filter_none, filter_sub, filter_up, filter_average, filter_paeth,
    readAt, writeAt, wadd8, wsub8, paeth_predictor, paeth_diff, Bind.bind, Except.bind,
    pure, Except.pure]

/-- C1 (amended): the de-filter step never returns a malformed-stream error value
(`PngError` has no such variant).  A decompressed stream holding exactly `height`
whole `1 + scanline_length` records plus a trailing fragment is silently accepted:
the result equals the decode of the stream truncated to its whole records, and is
never an error value. -/
theorem C1_trailing_fragment_ignored (header : PngHeader) (d : List Nat)
    (h1 : header.height * (scanlineLength header + 1) ≤ d.length)
    (h2 : d.length < (header.height + 1) * (scanlineLength header + 1)) :
    reconstruct header d =
      reconstruct header (d.take (header.height * (scanlineLength header + 1))) ∧
    ∀ e, reconstruct header d ≠ DecodeResult.err e :=
  ⟨reconstruct_drops_fragment header d h1 h2, fun e => reconstruct_ne_err header d e⟩

/-- C1 witness: the amended claim at the 1×1 greyscale header and stream `[0, 5, 99]`. -/
theorem C1_trailing_fragment_ignored_witness :
    reconstruct (greyHeader 1 1) [0, 5, 99] =
      reconstruct (greyHeader 1 1)
        ([0, 5, 99].take ((greyHeader 1 1).height * (scanlineLength (greyHeader 1 1) + 1))) ∧
    ∀ e, reconstruct (greyHeader 1 1) [0, 5, 99] ≠ DecodeResult.err e :=
  C1_trailing_fragment_ignored (greyHeader 1 1) [0, 5, 99] (by decide) (by decide)

/-- C2: at `a = 200, b = 100, c = 0` the code's `paeth_predictor` returns `c = 0`
(it computes `p = a + b - c` in wrapping 8-bit arithmetic, so `p = 44` and
`pc = 44` is minimal), while the claimed wide-signed-arithmetic predictor returns
`a = 200` (`p = 300`, `pa = 100` minimal).  The claim's universally quantified
statement therefore fails on the code. -/
theorem C2_paeth_wrapped_p :
    paeth_predictor 200 100 0 = 0 ∧ paeth_predictor_spec 200 100 0 = 200 ∧
    paeth_predictor 100 100 100 = 100 ∧ paeth_predictor 10 10 0 = 10 := by
  decide

/-- C3: at left neighbour `a = 200` and above neighbour `b = 200` with filtered
byte 0, `filter_average` writes `((200 + 200) mod 256) / 2 = 72`, not the claimed
wide-arithmetic `floor((200 + 200) / 2) = 200`: the neighbour sum wraps at 256
before halving (`a.wrapping_add(b) / 2`). -/
theorem C3_average_wrapped_sum :
    filter_average 0 3 1 [0, 200, 200, 0] 2 = Except.ok [0, 200, 200, 72] ∧
    spec_predict 3 200 200 0 = 200 := by
  decide

/-- C4 counterexample: for a 1×1 greyscale header, the stream `[5, 7]` carries
the out-of-range filter tag 5 and the engine panics with `Invalid filter type`
(the `panic!` arm of the dispatch); it does not return an error value — indeed
`PngError` has no `InvalidFilterType` variant at all. -/
theorem C4_counterexample :
    reconstruct (greyHeader 1 1) [5, 7] = DecodeResult.panicked ("Invalid filter type") ∧
    ∀ e, reconstruct (greyHeader 1 1) [5, 7] ≠ DecodeResult.err e := by
  refine ⟨?_, fun e => reconstruct_ne_err (greyHeader 1 1) [5, 7] e⟩
  simp [reconstruct, greyHeader, scanlineLength, bytes_per_pixel, chunksExact, goRecords,
    goBytes, filterFor, filter_none, filter_sub, filter_up, filter_average, filter_paeth,
    readAt, writeAt, wadd8, wsub8, paeth_predictor, paeth_diff, Bind.bind, Except.bind,
    pure, Except.pure]

/-- C4 (amended): for every decompressed stream of the exact expected length in
which some scanline record carries a leading filter-tag byte outside 0-4, the
de-filter engine panics with message `Invalid filter type` (the `panic!` arm of
the tag dispatch); it never returns an `InvalidFilterType` error value — no such
`PngError` variant exists. -/
theorem C4_invalid_tag_panics (header : PngHeader) (d : List Nat)
    (hlen : d.length = header.height * (scanlineLength header + 1))
    (hex : ∃ r ∈ chunksExact (scanlineLength header + 1) d, 4 < r.headD 0) :
    reconstruct header d = DecodeResult.panicked ("Invalid filter type") := by
  apply reconstruct_invalid_tag header d hlen
  obtain ⟨r, hmem, htag⟩ := hex
  refine ⟨r, hmem, ?_⟩
  rw [← List.headD_eq_head?_getD]
  exact filterFor_eq_none.mpr htag

/-- C4 witness: a 1×2 greyscale image whose second record has tag 5. -/
theorem C4_invalid_tag_panics_witness :
    reconstruct (greyHeader 1 2) [0, 9, 5, 7] = DecodeResult.panicked ("Invalid filter type") := by
  apply C4_invalid_tag_panics (greyHeader 1 2) [0, 9, 5, 7] (by decide)
  refine ⟨[5, 7], ?_, by decide⟩
  simp [chunksExact, greyHeader, scanlineLength, bytes_per_pixel]

/-- C5 counterexample: decoding with a 16-bit greyscale header (a legal header)
panics with the assertion message `bit depth must be 8`; it does not return an
unsupported-depth error value. -/
theorem C5_counterexample :
    decode_data (fun d => Except.ok d)
        (mkHeader 1 1 BitDepth.B16 ColourType.Greyscale InterlaceMethod.None)
        (idatChunk []) =
      DecodeResult.panicked ("bit depth must be 8") := by
  decide

/-- C5 (amended): for every header whose bit depth is not 8, `decode_data` panics
immediately with the `assert_eq!` message `bit depth must be 8`, for every inflate
routine and every data chunk; it neither returns an error value nor mis-decodes. -/
theorem C5_non8_bit_depth_panics (inflate : List Nat → Except String (List Nat))
    (header : PngHeader) (data : PngChunk) (h : header.bit_depth ≠ BitDepth.B8) :
    decode_data inflate header data = DecodeResult.panicked ("bit depth must be 8") := by
  simp [decode_data, h]

/-- C5 witness: the amended claim at a 16-bit greyscale header. -/
theorem C5_non8_bit_depth_panics_witness :
    decode_data (fun d => Except.ok d)
        (mkHeader 1 1 BitDepth.B16 ColourType.Greyscale InterlaceMethod.None)
        (idatChunk [3]) =
      DecodeResult.panicked ("bit depth must be 8") :=
  C5_non8_bit_depth_panics (fun d => Except.ok d)
    (mkHeader 1 1 BitDepth.B16 ColourType.Greyscale InterlaceMethod.None)
    (idatChunk [3]) (by decide)

/-- C6: filtering a single scanline of bytes with any filter type 0-4 (encoding
modelled from the spec: each byte minus the predictor of its already-encoded
neighbours, modulo 256) and then de-filtering the record with this engine yields
the original bytes, for all byte values 0-255 including wraparound cases. -/
theorem C6_roundtrip (ft : Nat) (hft : ft ≤ 4) (raw : List Nat)
    (hraw : ∀ y ∈ raw, y < 256) :
    reconstruct (greyHeader raw.length 1) (ft :: encode_scanline ft raw) = .ok raw := by
  obtain ⟨f, hf⟩ := filterFor_isSome_of_le hft
  have hsl : scanlineLength (greyHeader raw.length 1) = raw.length := by
    simp [scanlineLength, greyHeader, bytes_per_pixel]
  have henc : (encode_scanline ft raw).length = raw.length := by
    simp [encode_scanline, encode_bytes_length]
  have hchunks : chunksExact (raw.length + 1) (ft :: encode_scanline ft raw)
      = [ft :: encode_scanline ft raw] :=
    chunksExact_full (Nat.succ_pos _) (by simp [henc])
  have hgb := goBytes_first_row hf hft raw.length raw [] 0 hraw (by omega) (Or.inl ⟨rfl, rfl⟩)
  simp only [List.nil_append, List.length_nil, Nat.zero_add] at hgb
  simp only [reconstruct, hsl, show (greyHeader raw.length 1).height = 1 from rfl,
    Nat.mul_one, hchunks]
  simp only [goRecords, List.headD_eq_head?_getD, List.head?_cons, Option.getD_some,
    List.tail_cons, hf, encode_scanline, Bind.bind, Except.bind]
  rw [hgb]
  simp [goRecords]

/-- C6 witness: the spec's wraparound example — raw bytes `[10, 4]` under the Sub
filter encode to `[10, 250]`, and the engine decodes filtered byte 250 with
predictor 10 back to 4. -/
theorem C6_roundtrip_witness :
    encode_scanline 1 [10, 4] = [10, 250] ∧
    reconstruct (greyHeader 2 1) (1 :: encode_scanline 1 [10, 4]) = .ok [10, 4] :=
  ⟨by decide, C6_roundtrip 1 (by decide) [10, 4] (by decide)⟩

/-- C7: on a 13-byte IHDR payload with any width and height bytes, canonical
colour-type and bit-depth codes, zero compression and filter methods and a
non-interlaced flag, the header interpreter accepts exactly the pairs of the
spec's legal table and returns `InvalidBitDepthColourCombination` for every
other pair. -/
theorem C7_pairs (w0 w1 w2 w3 h0 h1 h2 h3 : Nat) (ct : ColourType) (bd : BitDepth) :
    PngHeader.try_from
        (ihdrChunk (headerPayload w0 w1 w2 w3 h0 h1 h2 h3 bd.code ct.code 0 0 0)) =
      (if legal_pairs_spec ct bd then
        Except.ok (mkHeader (u32be w0 w1 w2 w3) (u32be h0 h1 h2 h3) bd ct InterlaceMethod.None)
      else Except.error (PngError.InvalidBitDepthColourCombination bd ct)) := by
  cases ct <;> cases bd <;>
    simp [PngHeader.try_from, ihdrChunk, headerPayload, ColourType.code, BitDepth.code,
      colour_type_of, bit_depth_of, interlace_of, validCombination, legal_pairs_spec, mkHeader]

/-- C8: when the header parses with bit depth 8, the decode pipeline hands the
external inflate routine the concatenation of the payload bytes of the
image-data chunks in file order, and maps an inflate failure to the single
`InflateError` kind. -/
theorem C8_inflate_input (inflate : List Nat → Except String (List Nat)) (f : PngFile)
    (c0 : PngChunk) (header : PngHeader)
    (hc0 : PngFile.get_header_chunk f = some c0)
    (hhdr : PngHeader.try_from c0 = .ok header)
    (hbd : header.bit_depth = BitDepth.B8) :
    PngFile.decode_data_to inflate f =
      (match inflate (((f.chunks.filter
          (fun c => c.chunk_type == ChunkType.IDAT)).map PngChunk.data).flatten) with
      | .error e => .err (PngError.InflateError e)
      | .ok d => reconstruct header d) := by
  simp only [PngFile.decode_data_to, hc0, hhdr]
  unfold decode_data_chunks
  rw [if_pos hbd]
  rw [PngFile.image_data_chunks, foldl_append_data]
  simp

/-- C8 witness: on a concrete file with two image-data chunks `[0]` and `[7]`,
the pipeline inflates exactly `[0, 7]` (here with the identity inflate) and
de-filters its output. -/
theorem C8_inflate_input_witness :
    PngFile.decode_data_to (fun b => Except.ok b) c8File =
      reconstruct (mkHeader 1 1 BitDepth.B8 ColourType.Greyscale InterlaceMethod.None) [0, 7] :=
  C8_inflate_input (fun b => Except.ok b) c8File
    (ihdrChunk (headerPayload 0 0 0 1 0 0 0 1 8 0 0 0 0))
    (mkHeader 1 1 BitDepth.B8 ColourType.Greyscale InterlaceMethod.None)
    (by decide) (by decide) (by decide)

/-- C9: for the very first byte of the very first scanline (`offset = 0`,
`scanline_offset = 0`) every dispatchable filter function writes the raw
filtered byte unchanged: the neighbour contexts `a`, `b`, `c` are all 0 there,
and Paeth with `a = b = c = 0` predicts 0. -/
theorem C9_first_byte {ft : Nat} {f : FilterFunction} (hf : filterFor ft = some f)
    (x : Nat) (hx : x < 256) (decoded : List Nat) (hne : 0 < decoded.length) (sl : Nat) :
    f x 0 0 decoded sl = .ok (decoded.set 0 x) := by
  have hft : ft ≤ 4 := filterFor_le_of_isSome hf
  have happ := filter_apply_eq hf x 0 0 decoded sl hne
  have hA : ctxA decoded 0 0 = 0 := by simp [ctxA]
  have hB : ctxB decoded 0 0 sl = 0 := by simp [ctxB]
  have hC : ctxC decoded 0 0 sl = 0 := by simp [ctxC]
  rw [happ, hA, hB, hC]
  have hval : filterValue ft x 0 0 0 = x := by
    interval_cases ft <;>
      simp [filterValue, wadd8, paeth_predictor, wsub8, paeth_diff, Nat.mod_eq_of_lt hx]
  rw [hval]

/-- C9 witness: the Paeth filter at the first byte writes the filtered byte 7
unchanged. -/
theorem C9_first_byte_witness :
    filter_paeth 7 0 0 [9, 9] 1 = Except.ok [7, 9] :=
  @C9_first_byte 4 filter_paeth rfl 7 (by decide) [9, 9] (by decide) 1

/-- C10: every file value successfully returned by `from_reader` has a non-empty
chunk sequence whose last chunk is its only `IEND` chunk, and `get_header_chunk`
(the first chunk) succeeds on it. -/
theorem C10_structure (bytes : List Nat) (f : PngFile)
    (h : PngFile.from_reader bytes = .ok f) :
    f.chunks ≠ [] ∧
    (∃ l, f.chunks.getLast? = some l ∧ l.chunk_type = ChunkType.IEND) ∧
    List.countP (fun c => c.chunk_type == ChunkType.IEND) f.chunks = 1 ∧
    (PngFile.get_header_chunk f).isSome := by
  unfold PngFile.from_reader at h
  split at h
  · split at h
    · cases hch : parseChunks (bytes.drop 8) with
      | error e => rw [hch] at h; exact absurd h (by simp)
      | ok chunks =>
        rw [hch] at h
        injection h with h
        subst h
        obtain ⟨hne, hlast, hcount⟩ := parseChunks_spec _ _ hch
        refine ⟨hne, hlast, hcount, ?_⟩
        unfold PngFile.get_header_chunk
        cases chunks with
        | nil => exact absurd rfl hne
        | cons y ys => simp
    · exact absurd h (by simp)
  · exact absurd h (by simp)

/-- C10 witness: the minimal stream (signature plus a bare IEND chunk) parses to
a one-chunk file satisfying the invariant. -/
theorem C10_structure_witness :
    minimalFile.chunks ≠ [] ∧
    (∃ l, minimalFile.chunks.getLast? = some l ∧ l.chunk_type = ChunkType.IEND) ∧
    List.countP (fun c => c.chunk_type == ChunkType.IEND) minimalFile.chunks = 1 ∧
    (PngFile.get_header_chunk minimalFile).isSome := by
  apply C10_structure ([137, 80, 78, 71, 13, 10, 26, 10] ++ [0, 0, 0, 0, 73, 69, 78, 68, 1, 2, 3, 4])
  simp [PngFile.from_reader, MAGIC, parseChunks, parse_png_chunk, u32be, tag_of, minimalFile]

end Poeng
